import Mathlib

/-!
Verification development for the pattern-overlay synthesis engine of the
Trading-frontend repository (src/react-ts/src/components/TradingViewChart.tsx,
types from src/react-ts/src/api.ts).  Times are unix seconds modelled as Int,
prices as Rat.  Optional JS fields are modelled with Option; the JS falsy
default operator `x || d` on strings is modelled by `orDefault`.
-/

/-- Marker record, from the `Marker` interface in api.ts. -/
structure Marker where
  time : Int
  position : Option String := none
  color : Option String := none
  shape : Option String := none
  text : Option String := none
  pattern_id : Option Int := none
  score : Option Rat := none
  range_low : Option Rat := none
  range_high : Option Rat := none
  range_start_time : Option Int := none
  range_end_time : Option Int := none
  nrb_id : Option Int := none
  direction : Option String := none
deriving DecidableEq

/-- Price candle, from the `PriceData` interface in api.ts (`op` models the
reserved word `open`). -/
structure PriceData where
  time : Int
  op : Rat
  high : Rat
  low : Rat
  close : Rat
deriving DecidableEq

/-- A point of a line series: `{ time, value }`. -/
structure Point where
  time : Int
  value : Rat
deriving DecidableEq

/-- A rendered series marker, the element type of the batch handed to
`seriesMarkers.setMarkers` (text is always cleared by the component). -/
structure SMarker where
  time : Int
  position : String
  color : String
  shape : String
  text : String
deriving DecidableEq

/-- The observable state of one line-series handle: the color applied via
options and the data set via `setData`. -/
structure Handle where
  color : String
  data : List Point
deriving DecidableEq

/-- The observable result of one recompute cycle: candlestick data, the
key-to-handle mapping (insertion ordered, as a JS `Map`), and the point-marker
batch. -/
structure Recomputed where
  candleData : List PriceData
  handles : List (Int × Handle)
  batch : List SMarker
deriving DecidableEq

/-- Prefix test on character lists. -/
def charsPrefix : List Char → List Char → Bool
  | [], _ => true
  | _ :: _, [] => false
  | a :: as, b :: bs => a == b && charsPrefix as bs

/-- Contiguous-substring test on character lists. -/
def charsInfix (needle : List Char) : List Char → Bool
  | [] => charsPrefix needle []
  | b :: bs => charsPrefix needle (b :: bs) || charsInfix needle bs

/-- JS substring test `s.includes(sub)`, over the character data of the
strings. -/
def containsSub (s sub : String) : Bool := charsInfix sub.data s.data

/-- `chartTitle.toLowerCase().includes("bowl")` (line 117), with the case
mapping applied per character. -/
def isBowlPattern (title : String) : Bool :=
  charsInfix "bowl".data (title.data.map Char.toLower)

/-- `m.text?.toUpperCase().includes("BOWL") === true` (lines 130 to 131). -/
def hasBowlText (m : Marker) : Bool :=
  match m.text with
  | some s => charsInfix "BOWL".data (s.data.map Char.toUpper)
  | none => false

/-- Bowl-marker predicate used both by the `bowlMarkers` filter (lines 124 to
132) and by the exclusion filter of `otherMarkers` (lines 385 to 387). -/
def isBowlMarker (isBP : Bool) (m : Marker) : Bool :=
  (isBP && m.pattern_id.isSome) || hasBowlText m

/-- JS `x || d` on an optional string field: absent or empty strings fall back
to the default. -/
def orDefault (o : Option String) (d : String) : String :=
  match o with
  | some s => if s = "" then d else s
  | none => d

/-- Last element of a list with an explicit fallback, modelling the JS access
`arr[arr.length - 1]` on a nonempty array headed by the fallback. -/
def lastD (l : List α) (d : α) : α :=
  match l with
  | [] => d
  | a :: tl => lastD tl a

/-- Map insertion as used on the `bowls` map (lines 185 to 186): push onto the
existing group, else append a fresh singleton group at the end, preserving JS
`Map` insertion order. -/
def insertGroup (gs : List (Int × List Marker)) (k : Int) (m : Marker) :
    List (Int × List Marker) :=
  match gs with
  | [] => [(k, [m])]
  | (k₁, l) :: rest =>
      if k₁ = k then (k₁, l ++ [m]) :: rest else (k₁, l) :: insertGroup rest k m

/-- Grouping of bowl markers by `pattern_id`, with default `-1` when missing
(lines 181 to 187). -/
def groupByPatternId (ms : List Marker) : List (Int × List Marker) :=
  ms.foldl (fun gs m => insertGroup gs (m.pattern_id.getD (-1)) m) []

/-- `bowls.has(k)`. -/
def hasKey (gs : List (Int × α)) (k : Int) : Bool :=
  gs.any (fun g => g.1 = k)

/-- `Map.get` on an insertion-ordered association list. -/
def lookupKey (k : Int) : List (Int × α) → Option α
  | [] => none
  | (k₁, v) :: rest => if k₁ = k then some v else lookupKey k rest

/-- `[...markers].sort((a, b) => Number(a.time) - Number(b.time))`: a stable
ascending sort by time. -/
def sortByTime (ms : List Marker) : List Marker :=
  List.insertionSort (fun a b => a.time ≤ b.time) ms

/-- `TIME_CLUSTER_THRESHOLD = 30 * 24 * 60 * 60` (line 205). -/
def TIME_CLUSTER_THRESHOLD : Int := 30 * 24 * 60 * 60

/-- One step of the fallback clustering loop (lines 209 to 220); the state is
(clusterId, lastTime, groups). -/
def clusterStep (st : Int × Int × List (Int × List Marker)) (m : Marker) :
    Int × Int × List (Int × List Marker) :=
  let cid := if st.2.1 = 0 ∨ m.time - st.2.1 > TIME_CLUSTER_THRESHOLD
    then st.1 + 1 else st.1
  (cid, m.time, insertGroup st.2.2 cid m)

/-- Fallback time clustering of bowl markers (lines 196 to 220). -/
def clusterByTime (ms : List Marker) : List (Int × List Marker) :=
  ((sortByTime ms).foldl clusterStep (0, 0, [])).2.2

/-- The grouped bowl map produced by steps 2 and 3 of the component
(lines 124 to 221): group by `pattern_id`, then regroup by time clusters when
the grouping collapsed to the single synthetic key `-1`. -/
def bowlsOf (isBP : Bool) (markers : List Marker) : List (Int × List Marker) :=
  let bm := markers.filter (isBowlMarker isBP)
  let gs := groupByPatternId bm
  if gs.length = 1 ∧ hasKey gs (-1) ∧ bm.length > 0 then clusterByTime bm else gs

/-- `EXTEND_DAYS * 24 * 60 * 60` with `EXTEND_DAYS = 30` (lines 303 to 305). -/
def EXTEND_SECONDS : Int := 30 * 24 * 60 * 60

/-- Candle sort used on `spanCandles` (line 313). -/
def sortCandlesByTime (cs : List PriceData) : List PriceData :=
  List.insertionSort (fun a b => a.time ≤ b.time) cs

/-- `spanCandles` (lines 307 to 313): candles inside the window extended by 30
days on each side of the marker time range, sorted ascending. -/
def spanCandlesOf (fpd : List PriceData) (firstTime lastTime : Int) :
    List PriceData :=
  sortCandlesByTime (fpd.filter (fun c =>
    decide (firstTime - EXTEND_SECONDS ≤ c.time) &&
    decide (c.time ≤ lastTime + EXTEND_SECONDS)))

/-- `Math.min(...spanCandles.map(c => c.low))` over the nonempty span headed
by `c`. -/
def minLowOf (c : PriceData) (rest : List PriceData) : Rat :=
  rest.foldl (fun acc x => min acc x.low) c.low

/-- Minimum low over a span (0 for the empty span, which the component guards
against). -/
def spanMinLow : List PriceData → Rat
  | [] => 0
  | c :: rest => minLowOf c rest

/-- Maximum low over a span. -/
def spanMaxLow : List PriceData → Rat
  | [] => 0
  | c :: rest => rest.foldl (fun acc x => max acc x.low) c.low

/-- Low of the first span candle (`startLow`, line 331). -/
def spanStartLow : List PriceData → Rat
  | [] => 0
  | c :: _ => c.low

/-- Low of the last span candle (`endLow`, line 332). -/
def spanEndLow : List PriceData → Rat
  | [] => 0
  | c :: rest => (lastD rest c).low

/-- Map with the element index, from a given starting index (model of the
`(c, idx)` callback of `Array.map`). -/
def mapIdxFrom (f : Nat → α → β) : Nat → List α → List β
  | _, [] => []
  | i, a :: as => f i a :: mapIdxFrom f (i + 1) as

/-- The body of the `lineData` map callback (lines 338 to 369): one emitted
curve point for the candle `c` at index `idx`. -/
def bowlPoint (startLow endLow minLow denom bottomPosition : Rat) (idx : Nat)
    (c : PriceData) : Point :=
  let t : Rat := (idx : Rat) / denom
  let distanceFromBottom := t - bottomPosition
  let parabola := distanceFromBottom * distanceFromBottom
  let maxDistance := max bottomPosition (1 - bottomPosition)
  let maxParabola := maxDistance * maxDistance
  let normalizedParabola := if maxParabola > 0 then parabola / maxParabola else 0
  let bowlDepth := 1 - normalizedParabola
  let edgeInterpolation := startLow * (1 - t) + endLow * t
  let curvedValue :=
    edgeInterpolation + (minLow - edgeInterpolation) * bowlDepth * (0.8 : Rat)
  ⟨c.time, (0.65 : Rat) * curvedValue + (0.35 : Rat) * c.low⟩

/-- `lineData` (lines 326 to 370): the synthesized curve over a span of
candles. -/
def lineData : List PriceData → List Point
  | [] => []
  | c :: rest =>
    let minLow := minLowOf c rest
    let minLowIndex := (c :: rest).findIdx (fun x => x.low == minLow)
    let denom : Rat := max 1 (((c :: rest).length - 1 : Nat) : Rat)
    let bottomPosition : Rat := (minLowIndex : Rat) / denom
    mapIdxFrom (bowlPoint c.low ((lastD rest c).low) minLow denom
      bottomPosition) 0 (c :: rest)

/-- The color palette `bowlColors` (lines 246 to 257). -/
def bowlColors : List String :=
  ["#2962FF", "#FF6D00", "#00BFA5", "#D500F9", "#FFD600",
   "#00E676", "#FF1744", "#FFFFFF", "#9C27B0", "#00BCD4"]

/-- `Math.abs(numericPatternId) % bowlColors.length` then palette lookup
(lines 267 to 268). -/
def colorOf (pid : Int) : String :=
  bowlColors.getD (pid.natAbs % bowlColors.length) ""

/-- Clearing a handle entry: `series.setData([])` keeps the color. -/
def clearEntry (e : Int × Handle) : Int × Handle :=
  (e.1, ⟨e.2.color, []⟩)

/-- Step 4 of the component (lines 238 to 243): clear every stored series
whose key is not among the bowl keys. -/
def cleanupHandles (handles : List (Int × Handle))
    (bowls : List (Int × List Marker)) : List (Int × Handle) :=
  handles.map (fun e => if hasKey bowls e.1 then e else clearEntry e)

/-- `Map.set` semantics on the handle map: replace the entries carrying the
key in place, else append a fresh entry. -/
def setEntry (s : List (Int × Handle)) (k : Int) (h : Handle) :
    List (Int × Handle) :=
  if s.any (fun e => e.1 = k) then
    s.map (fun e => if e.1 = k then (k, h) else e)
  else s ++ [(k, h)]

/-- Folding a list of writes over the handle map. -/
def applyWrites (s : List (Int × Handle)) (ws : List (Int × Handle)) :
    List (Int × Handle) :=
  ws.foldl (fun h w => setEntry h w.1 w.2) s

/-- Drawing one bowl group (lines 260 to 377): sort its markers, derive the
color, compute the span and the curve, and store color plus data under the
group key.  Groups are never empty (each is created around a marker); the
empty case is unreachable. -/
def drawStep (fpd : List PriceData) (hs : List (Int × Handle))
    (g : Int × List Marker) : List (Int × Handle) :=
  match sortByTime g.2 with
  | [] => hs
  | m₀ :: rest =>
    let span := spanCandlesOf fpd m₀.time ((lastD rest m₀).time)
    setEntry hs g.1 ⟨colorOf g.1, lineData span⟩

/-- Step 6 of the component: draw every bowl group over the handle map. -/
def drawBowls (fpd : List PriceData) (hs : List (Int × Handle))
    (bowls : List (Int × List Marker)) : List (Int × Handle) :=
  bowls.foldl (drawStep fpd) hs

/-- The write performed for one bowl group, when any. -/
def writeOf (fpd : List PriceData) (g : Int × List Marker) :
    Option (Int × Handle) :=
  match sortByTime g.2 with
  | [] => none
  | m₀ :: rest =>
    some (g.1, ⟨colorOf g.1,
      lineData (spanCandlesOf fpd m₀.time ((lastD rest m₀).time))⟩)

/-- The sequence of handle writes performed by step 6. -/
def writesOf (fpd : List PriceData) (bowls : List (Int × List Marker)) :
    List (Int × Handle) :=
  bowls.filterMap (writeOf fpd)

/-- `otherMarkers` (lines 381 to 403): the point-marker batch, excluding bowl
markers, with defaults `belowBar`, `#2196F3`, `circle` and cleared text. -/
def otherMarkersOf (isBP : Bool) (markers : List Marker) : List SMarker :=
  (markers.filter (fun m => !(isBowlMarker isBP m))).map (fun m =>
    ⟨m.time, orDefault m.position "belowBar", orDefault m.color "#2196F3",
     orDefault m.shape "circle", ""⟩)

/-- `formattedPriceData` (lines 92 to 98): field-by-field copy of the price
series. -/
def formattedPriceData (pd : List PriceData) : List PriceData :=
  pd.map (fun item => ⟨item.time, item.op, item.high, item.low, item.close⟩)

/-- One recompute cycle of the effect body (lines 89 to 422): on nonempty
price data, set the candles, group and draw the bowls over the stored handle
map and emit the point-marker batch; on empty price data, clear everything. -/
def recompute (handles : List (Int × Handle)) (priceData : List PriceData)
    (markers : List Marker) (title : String) : Recomputed :=
  if priceData.length > 0 then
    let fpd := formattedPriceData priceData
    let isBP := isBowlPattern title
    let bowls := bowlsOf isBP markers
    let hs := drawBowls fpd (cleanupHandles handles bowls) bowls
    ⟨fpd, hs, otherMarkersOf isBP markers⟩
  else
    ⟨[], handles.map clearEntry, []⟩

/-- The currently-relevant key set of a cycle: the bowl keys when price data
is nonempty, empty otherwise. -/
def relevantKeys (priceData : List PriceData) (markers : List Marker)
    (title : String) : List Int :=
  if priceData.length > 0 then
    (bowlsOf (isBowlPattern title) markers).map Prod.fst
  else []

/-- Modelled from the spec: the range-candidate test of section 4.1 of the
spec.  The Range Segment Builder itself is not part of the TradingViewChart
source included under src; only the Marker range-field declarations (api.ts)
and the App wiring appear there.  A marker is a range-candidate iff no bowl
condition holds and all four of range_low, range_high, range_start_time,
range_end_time are non-null. -/
def isRangeCandidate (isBP : Bool) (m : Marker) : Bool :=
  !(isBowlMarker isBP m) && m.range_low.isSome && m.range_high.isSome &&
    m.range_start_time.isSome && m.range_end_time.isSome

/-- Modelled from the spec: the Range Segment Builder (section 4.4), missing
from the source under src.  For each range-candidate build two 2-point
segments, a high line and a low line spanning range_start_time to
range_end_time at constant range_high and range_low, keyed by nrb_id if
present else by the marker time. -/
def rangeSegments (isBP : Bool) (ms : List Marker) :
    List (Int × List Point × List Point) :=
  (ms.filter (isRangeCandidate isBP)).map (fun m =>
    (m.nrb_id.getD m.time,
     [⟨m.range_start_time.getD 0, m.range_high.getD 0⟩,
      ⟨m.range_end_time.getD 0, m.range_high.getD 0⟩],
     [⟨m.range_start_time.getD 0, m.range_low.getD 0⟩,
      ⟨m.range_end_time.getD 0, m.range_low.getD 0⟩]))

/-- The three classification outcomes of section 4.1 of the spec. -/
inductive MarkerClass
  | bowl
  | range
  | point
deriving DecidableEq

/-- Per-marker classification in priority order: the bowl test of the source
(lines 124 to 132), then the spec-modelled range-candidate test, then plain
point marker. -/
def classify (isBP : Bool) (m : Marker) : MarkerClass :=
  if isBowlMarker isBP m then .bowl
  else if m.range_low.isSome && m.range_high.isSome &&
    m.range_start_time.isSome && m.range_end_time.isSome then .range
  else .point

/-- The per-point curve formula exactly as claim C4 words it, written
independently of `lineData` for comparison: value
`0.65 * curvedValue + 0.35 * candle.low` with
`curvedValue = edgeInterpolation + (minLow - edgeInterpolation) * bowlDepth * 0.8`,
`edgeInterpolation = startLow * (1 - t) + endLow * t`,
`bowlDepth = 1 - (t - bottomPosition)^2 / max(bottomPosition, 1 - bottomPosition)^2`
(taken as `1 - 0` when the denominator is 0), `t = index / max(1, n - 1)` and
`bottomPosition = (index of the first candle attaining the minimum low) / max(1, n - 1)`. -/
def claimCurveValue (span : List PriceData) (idx : Nat) : Rat :=
  let n := span.length
  let minLow := spanMinLow span
  let bottomIndex := span.findIdx (fun c => c.low == minLow)
  let scale : Rat := max 1 ((n - 1 : Nat) : Rat)
  let t : Rat := (idx : Rat) / scale
  let bottomPosition : Rat := (bottomIndex : Rat) / scale
  let den := max bottomPosition (1 - bottomPosition) *
    max bottomPosition (1 - bottomPosition)
  let bowlDepth := if den = 0 then 1 - 0
    else 1 - (t - bottomPosition) * (t - bottomPosition) / den
  let edgeInterpolation := spanStartLow span * (1 - t) + spanEndLow span * t
  let curvedValue :=
    edgeInterpolation + (minLow - edgeInterpolation) * bowlDepth * (0.8 : Rat)
  (0.65 : Rat) * curvedValue + (0.35 : Rat) * (span.getD idx ⟨0, 0, 0, 0, 0⟩).low

/-- Rendering of a single non-bowl marker as the amended claim C8 words it:
the marker falls back to its own position, color and shape or the defaults
`belowBar`, `#2196F3`, `circle`, with text cleared; direction plays no role. -/
def renderPoint (m : Marker) : SMarker :=
  ⟨m.time, orDefault m.position "belowBar", orDefault m.color "#2196F3",
   orDefault m.shape "circle", ""⟩

/-- Concrete marker carrying both a pattern id and all four range fields,
used to exercise the classification priority. -/
def mBowlWithRange : Marker :=
  { time := 1, pattern_id := some 2, range_low := some 1, range_high := some 2,
    range_start_time := some 3, range_end_time := some 4 }

/-- Concrete id-less bowl marker at a parametric time, used for the fallback
clustering example. -/
def mBowlText (t : Int) : Marker := { time := t, text := some "BOWL" }

/-- Concrete bowl marker with pattern id 7 at a parametric time, used for the
counterexample to the claimed fallback trigger. -/
def mBowlId7 (t : Int) : Marker := { time := t, pattern_id := some 7 }

/-! ### Basic helper lemmas -/

theorem lastD_mem (l : List α) (d : α) : lastD l d ∈ d :: l := by
  induction l generalizing d with
  | nil => simp [lastD]
  | cons a tl ih =>
      have h := ih a
      rcases List.mem_cons.mp h with h | h
      · simp [lastD, h]
      · simp [lastD]
        right
        exact Or.inr h

theorem getD_mem (l : List α) (j : Nat) (d : α) (hj : j < l.length) :
    l.getD j d ∈ l := by
  induction l generalizing j with
  | nil => simp at hj
  | cons a tl ih =>
      cases j with
      | zero => simp
      | succ j =>
          simp only [List.getD_cons_succ]
          exact List.mem_cons_of_mem _ (ih j (by simpa using hj))

theorem mapIdxFrom_length (f : Nat → α → β) (i : Nat) (l : List α) :
    (mapIdxFrom f i l).length = l.length := by
  induction l generalizing i with
  | nil => rfl
  | cons a tl ih => simp [mapIdxFrom, ih]

theorem mapIdxFrom_getD (f : Nat → α → β) (i j : Nat) (l : List α)
    (dα : α) (dβ : β) (hj : j < l.length) :
    (mapIdxFrom f i l).getD j dβ = f (i + j) (l.getD j dα) := by
  induction l generalizing i j with
  | nil => simp at hj
  | cons a tl ih =>
      cases j with
      | zero => simp [mapIdxFrom]
      | succ j =>
          simp only [mapIdxFrom, List.getD_cons_succ]
          rw [ih (i + 1) j (by simpa using hj)]
          ring_nf

theorem mem_mapIdxFrom (f : Nat → α → β) (i : Nat) (l : List α) (dα : α)
    (p : β) (hp : p ∈ mapIdxFrom f i l) :
    ∃ j, j < l.length ∧ p = f (i + j) (l.getD j dα) := by
  induction l generalizing i with
  | nil => simp [mapIdxFrom] at hp
  | cons a tl ih =>
      simp only [mapIdxFrom, List.mem_cons] at hp
      rcases hp with hp | hp
      · exact ⟨0, by simp, by simpa using hp⟩
      · obtain ⟨j, hj, hpj⟩ := ih (i + 1) hp
        refine ⟨j + 1, by simpa using hj, ?_⟩
        rw [hpj]
        congr 1
        omega

theorem foldl_min_le_init (l : List PriceData) (a : Rat) :
    l.foldl (fun acc x => min acc x.low) a ≤ a := by
  induction l generalizing a with
  | nil => simp
  | cons y tl ih => exact le_trans (ih (min a y.low)) (min_le_left _ _)

theorem foldl_min_le_mem (l : List PriceData) (a : Rat) (x : PriceData)
    (hx : x ∈ l) : l.foldl (fun acc x => min acc x.low) a ≤ x.low := by
  induction l generalizing a with
  | nil => simp at hx
  | cons y tl ih =>
      rcases List.mem_cons.mp hx with h | h
      · subst h
        exact le_trans (foldl_min_le_init tl _) (min_le_right _ _)
      · exact ih _ h

theorem init_le_foldl_max (l : List PriceData) (a : Rat) :
    a ≤ l.foldl (fun acc x => max acc x.low) a := by
  induction l generalizing a with
  | nil => simp
  | cons y tl ih => exact le_trans (le_max_left _ _) (ih (max a y.low))

theorem mem_le_foldl_max (l : List PriceData) (a : Rat) (x : PriceData)
    (hx : x ∈ l) : x.low ≤ l.foldl (fun acc x => max acc x.low) a := by
  induction l generalizing a with
  | nil => simp at hx
  | cons y tl ih =>
      rcases List.mem_cons.mp hx with h | h
      · subst h
        exact le_trans (le_max_right _ _) (init_le_foldl_max tl _)
      · exact ih _ h

theorem spanMinLow_le (span : List PriceData) (x : PriceData) (hx : x ∈ span) :
    spanMinLow span ≤ x.low := by
  cases span with
  | nil => simp at hx
  | cons c rest =>
      rcases List.mem_cons.mp hx with h | h
      · subst h
        exact foldl_min_le_init rest _
      · exact foldl_min_le_mem rest _ _ h

theorem le_spanMaxLow (span : List PriceData) (x : PriceData) (hx : x ∈ span) :
    x.low ≤ spanMaxLow span := by
  cases span with
  | nil => simp at hx
  | cons c rest =>
      rcases List.mem_cons.mp hx with h | h
      · subst h
        exact init_le_foldl_max rest _
      · exact mem_le_foldl_max rest _ _ h

theorem mem_spanCandlesOf (fpd : List PriceData) (a b : Int) (x : PriceData)
    (hx : x ∈ spanCandlesOf fpd a b) :
    x ∈ fpd ∧ a - EXTEND_SECONDS ≤ x.time ∧ x.time ≤ b + EXTEND_SECONDS := by
  unfold spanCandlesOf sortCandlesByTime at hx
  have hx₂ := (List.perm_insertionSort
    (fun (a b : PriceData) => a.time ≤ b.time) _).mem_iff.mp hx
  have hx₃ := List.mem_filter.mp hx₂
  refine ⟨hx₃.1, ?_⟩
  have := hx₃.2
  simp only [Bool.and_eq_true, decide_eq_true_eq] at this
  exact this

theorem foldl_min_attained (l : List PriceData) (a : Rat) :
    l.foldl (fun acc x => min acc x.low) a = a ∨
    ∃ x ∈ l, l.foldl (fun acc x => min acc x.low) a = x.low := by
  induction l generalizing a with
  | nil => exact Or.inl rfl
  | cons y tl ih =>
      rcases ih (min a y.low) with h | ⟨x, hx, h⟩
      · rcases min_choice a y.low with hm | hm
        · exact Or.inl (by simp only [List.foldl_cons]; rw [h, hm])
        · exact Or.inr ⟨y, List.mem_cons_self _ _, by
            simp only [List.foldl_cons]; rw [h, hm]⟩
      · exact Or.inr ⟨x, List.mem_cons_of_mem _ hx, by
          simp only [List.foldl_cons]; rw [h]⟩

theorem spanMinLow_attained (c : PriceData) (rest : List PriceData) :
    ∃ x ∈ c :: rest, x.low = spanMinLow (c :: rest) := by
  have h := foldl_min_attained rest c.low
  rcases h with h | ⟨x, hx, h⟩
  · exact ⟨c, List.mem_cons_self _ _, by simp [spanMinLow, minLowOf, h]⟩
  · exact ⟨x, List.mem_cons_of_mem _ hx, by simp [spanMinLow, minLowOf, h]⟩

theorem findIdx_lt_of_exists (l : List α) (p : α → Bool)
    (h : ∃ x ∈ l, p x = true) : l.findIdx p < l.length := by
  induction l with
  | nil => simp at h
  | cons a tl ih =>
      by_cases ha : p a
      · simp [List.findIdx_cons, ha]
      · obtain ⟨x, hx, hpx⟩ := h
        rcases List.mem_cons.mp hx with rfl | hx
        · exact absurd hpx (by simpa using ha)
        · have := ih ⟨x, hx, hpx⟩
          simp only [List.findIdx_cons, Bool.cond_eq_ite]
          rw [if_neg (by simpa using ha)]
          simpa using this

theorem bowlPoint_time (s e mn denom bp : Rat) (idx : Nat) (c : PriceData) :
    (bowlPoint s e mn denom bp idx c).time = c.time := rfl

theorem bowlPoint_bounds (s e mn mx denom bp : Rat) (idx : Nat) (c : PriceData)
    (hd : 1 ≤ denom) (hbp : 0 ≤ bp) (ht : (idx : Rat) ≤ denom)
    (hs : mn ≤ s) (he : mn ≤ e) (hc1 : mn ≤ c.low) (hc2 : c.low ≤ mx) :
    mn ≤ (bowlPoint s e mn denom bp idx c).value ∧
    (bowlPoint s e mn denom bp idx c).value ≤
      (0.65 : Rat) * max s e + (0.35 : Rat) * mx := by
  have hd0 : (0 : Rat) < denom := lt_of_lt_of_le one_pos hd
  set t : Rat := (idx : Rat) / denom with htdef
  have ht0 : 0 ≤ t := div_nonneg (Nat.cast_nonneg idx) (le_of_lt hd0)
  have ht1 : t ≤ 1 := (div_le_one hd0).mpr ht
  set mD : Rat := max bp (1 - bp) with hmDdef
  have hmD : 0 < mD := by
    rcases le_total bp (1 / 2) with h | h
    · have : (1 : Rat) / 2 ≤ 1 - bp := by linarith
      calc (0 : Rat) < 1 / 2 := by norm_num
        _ ≤ 1 - bp := this
        _ ≤ mD := le_max_right _ _
    · calc (0 : Rat) < 1 / 2 := by norm_num
        _ ≤ bp := h
        _ ≤ mD := le_max_left _ _
  have hmP : 0 < mD * mD := mul_pos hmD hmD
  have hpar : (t - bp) * (t - bp) ≤ mD * mD := by
    have h₁ : t - bp ≤ mD := by
      have : (1 : Rat) - bp ≤ mD := le_max_right _ _
      linarith
    have h₂ : bp - t ≤ mD := by
      have : bp ≤ mD := le_max_left _ _
      linarith
    nlinarith
  have hnp0 : 0 ≤ (t - bp) * (t - bp) / (mD * mD) :=
    div_nonneg (mul_self_nonneg _) (le_of_lt hmP)
  have hnp1 : (t - bp) * (t - bp) / (mD * mD) ≤ 1 := (div_le_one hmP).mpr hpar
  have hE1 : mn ≤ s * (1 - t) + e * t := by nlinarith
  have hE2 : s * (1 - t) + e * t ≤ max s e := by
    have h₁ : s ≤ max s e := le_max_left _ _
    have h₂ : e ≤ max s e := le_max_right _ _
    nlinarith
  simp only [bowlPoint, Point.value]
  rw [if_pos hmP]
  constructor
  · nlinarith
  · nlinarith

/-! ### Claim C4: the per-point curve formula -/

/-- C4: for every pattern instance whose extended window contains n >= 1
candles sorted ascending, the curve emits exactly one point per span candle,
at that candle time, with value 0.65 * curvedValue + 0.35 * candle.low where
curvedValue follows the parabola-blend formula of the claim
(`claimCurveValue`), including the first-index bottom position, the
max(1, n - 1) normalization and the zero-denominator guard. -/
theorem claim_C4_curve_formula (span : List PriceData) (hne : span ≠ [])
    (j : Nat) (hj : j < span.length) :
    (lineData span).length = span.length ∧
    (lineData span).getD j ⟨0, 0⟩ =
      ⟨(span.getD j ⟨0, 0, 0, 0, 0⟩).time, claimCurveValue span j⟩ := by
  match span, hne with
  | c :: rest, _ =>
    constructor
    · rw [lineData]
      exact mapIdxFrom_length _ _ _
    · rw [lineData]
      rw [mapIdxFrom_getD _ 0 j _ (⟨0, 0, 0, 0, 0⟩ : PriceData) (⟨0, 0⟩ : Point) hj]
      simp only [Nat.zero_add]
      simp only [bowlPoint, claimCurveValue, spanMinLow, spanStartLow, spanEndLow]
      congr 1
      by_cases hmp : max ((((c :: rest).findIdx fun x => x.low == minLowOf c rest : Nat) : Rat) /
            max 1 (((c :: rest).length - 1 : Nat) : Rat))
          (1 - (((c :: rest).findIdx fun x => x.low == minLowOf c rest : Nat) : Rat) /
            max 1 (((c :: rest).length - 1 : Nat) : Rat)) *
          max ((((c :: rest).findIdx fun x => x.low == minLowOf c rest : Nat) : Rat) /
            max 1 (((c :: rest).length - 1 : Nat) : Rat))
          (1 - (((c :: rest).findIdx fun x => x.low == minLowOf c rest : Nat) : Rat) /
            max 1 (((c :: rest).length - 1 : Nat) : Rat)) = 0
      · rw [if_pos hmp, if_neg (by rw [hmp]; exact lt_irrefl 0)]
      · have h0 : 0 < max ((((c :: rest).findIdx fun x => x.low == minLowOf c rest : Nat) : Rat) /
              max 1 (((c :: rest).length - 1 : Nat) : Rat))
            (1 - (((c :: rest).findIdx fun x => x.low == minLowOf c rest : Nat) : Rat) /
              max 1 (((c :: rest).length - 1 : Nat) : Rat)) *
            max ((((c :: rest).findIdx fun x => x.low == minLowOf c rest : Nat) : Rat) /
              max 1 (((c :: rest).length - 1 : Nat) : Rat))
            (1 - (((c :: rest).findIdx fun x => x.low == minLowOf c rest : Nat) : Rat) /
              max 1 (((c :: rest).length - 1 : Nat) : Rat)) :=
          lt_of_le_of_ne (mul_self_nonneg _) (Ne.symm hmp)
        rw [if_neg hmp, if_pos h0]

/-- Witness for C4 at the concrete three-candle span with lows 100, 200, 100
and index 1. -/
theorem claim_C4_witness :
    (lineData [(⟨100, 100, 100, 100, 100⟩ : PriceData), ⟨200, 200, 200, 200, 200⟩,
        ⟨300, 100, 100, 100, 100⟩]).length =
      ([(⟨100, 100, 100, 100, 100⟩ : PriceData), ⟨200, 200, 200, 200, 200⟩,
        ⟨300, 100, 100, 100, 100⟩] : List PriceData).length ∧
    (lineData [(⟨100, 100, 100, 100, 100⟩ : PriceData), ⟨200, 200, 200, 200, 200⟩,
        ⟨300, 100, 100, 100, 100⟩]).getD 1 ⟨0, 0⟩ =
      ⟨(([(⟨100, 100, 100, 100, 100⟩ : PriceData), ⟨200, 200, 200, 200, 200⟩,
        ⟨300, 100, 100, 100, 100⟩] : List PriceData).getD 1 ⟨0, 0, 0, 0, 0⟩).time,
       claimCurveValue [⟨100, 100, 100, 100, 100⟩, ⟨200, 200, 200, 200, 200⟩,
        ⟨300, 100, 100, 100, 100⟩] 1⟩ :=
  claim_C4_curve_formula _ (by simp) 1 (by simp)

/-! ### Claim C3: curve boundedness -/

/-- C3 counterexample: with candles at times 100, 200, 300 and lows 100, 200,
100 and a single bowl marker at time 200, the engine emits the curve point
(200, 135), and 135 exceeds max(startLow, endLow) = 100, refuting the claimed
upper bound max(startLow, endLow) on emitted values. -/
theorem claim_C3_counterexample :
    (recompute [] [(⟨100, 100, 100, 100, 100⟩ : PriceData), ⟨200, 200, 200, 200, 200⟩,
        ⟨300, 100, 100, 100, 100⟩] [{ time := 200, pattern_id := some 1 }] "Bowl").handles =
      [(1, ⟨"#FF6D00", [⟨100, 100⟩, ⟨200, 135⟩, ⟨300, 100⟩]⟩)] ∧
    (⟨200, 135⟩ : Point) ∈ lineData (spanCandlesOf
      [(⟨100, 100, 100, 100, 100⟩ : PriceData), ⟨200, 200, 200, 200, 200⟩,
        ⟨300, 100, 100, 100, 100⟩] 200 200) ∧
    max (spanStartLow (spanCandlesOf
        [(⟨100, 100, 100, 100, 100⟩ : PriceData), ⟨200, 200, 200, 200, 200⟩,
          ⟨300, 100, 100, 100, 100⟩] 200 200))
      (spanEndLow (spanCandlesOf
        [(⟨100, 100, 100, 100, 100⟩ : PriceData), ⟨200, 200, 200, 200, 200⟩,
          ⟨300, 100, 100, 100, 100⟩] 200 200)) = 100 ∧
    ¬((135 : Rat) ≤ 100) := by
  refine ⟨?_, ?_, ?_, by norm_num⟩ <;>
  norm_num [recompute, formattedPriceData, bowlsOf, isBowlPattern, isBowlMarker,
    hasBowlText, groupByPatternId, insertGroup, hasKey, cleanupHandles, drawBowls,
    drawStep, sortByTime, List.insertionSort, List.orderedInsert, spanCandlesOf,
    sortCandlesByTime, EXTEND_SECONDS, lineData, minLowOf, mapIdxFrom, bowlPoint,
    setEntry, colorOf, bowlColors, spanStartLow, spanEndLow, lastD,
    List.filter, List.foldl, List.findIdx, List.findIdx.go]

/-- C3 amended: for every pattern window whose span contains at least one
candle, every emitted point lies inside the extended time window, and every
emitted value lies between the span minLow and
0.65 * max(startLow, endLow) + 0.35 * maxLow inclusive, where maxLow is the
maximum low over the span candles (the counterexample forces the 0.35 blend
with the candle low into the upper bound). -/
theorem claim_C3_amended (fpd : List PriceData) (firstTime lastTime : Int)
    (p : Point) (hp : p ∈ lineData (spanCandlesOf fpd firstTime lastTime)) :
    (firstTime - EXTEND_SECONDS ≤ p.time ∧ p.time ≤ lastTime + EXTEND_SECONDS) ∧
    spanMinLow (spanCandlesOf fpd firstTime lastTime) ≤ p.value ∧
    p.value ≤
      (0.65 : Rat) * max (spanStartLow (spanCandlesOf fpd firstTime lastTime))
          (spanEndLow (spanCandlesOf fpd firstTime lastTime)) +
        (0.35 : Rat) * spanMaxLow (spanCandlesOf fpd firstTime lastTime) := by
  rcases hsp : spanCandlesOf fpd firstTime lastTime with _ | ⟨c, rest⟩
  · rw [hsp] at hp
    simp [lineData] at hp
  · rw [hsp] at hp
    rw [lineData] at hp
    obtain ⟨j, hj, hpj⟩ := mem_mapIdxFrom _ 0 _ (⟨0, 0, 0, 0, 0⟩ : PriceData) p hp
    have hcj : (c :: rest).getD j ⟨0, 0, 0, 0, 0⟩ ∈ c :: rest := getD_mem _ j _ hj
    have hcj₂ : (c :: rest).getD j ⟨0, 0, 0, 0, 0⟩ ∈
        spanCandlesOf fpd firstTime lastTime := by rw [hsp]; exact hcj
    have htime := mem_spanCandlesOf fpd firstTime lastTime _ hcj₂
    have hd : (1 : Rat) ≤ max 1 (((c :: rest).length - 1 : Nat) : Rat) :=
      le_max_left _ _
    have hbp : (0 : Rat) ≤
        (((c :: rest).findIdx fun x => x.low == minLowOf c rest : Nat) : Rat) /
          max 1 (((c :: rest).length - 1 : Nat) : Rat) :=
      div_nonneg (Nat.cast_nonneg _) (by linarith)
    have hlen : ((c :: rest).length - 1 : Nat) = rest.length := by simp
    have ht : ((0 + j : Nat) : Rat) ≤ max 1 (((c :: rest).length - 1 : Nat) : Rat) := by
      refine le_trans ?_ (le_max_right _ _)
      rw [hlen]
      have : 0 + j ≤ rest.length := by
        simp only [List.length_cons] at hj
        omega
      exact_mod_cast this
    have hs : minLowOf c rest ≤ c.low :=
      spanMinLow_le (c :: rest) c (List.mem_cons_self _ _)
    have he : minLowOf c rest ≤ (lastD rest c).low :=
      spanMinLow_le (c :: rest) _ (lastD_mem rest c)
    have hc1 : minLowOf c rest ≤ ((c :: rest).getD j ⟨0, 0, 0, 0, 0⟩).low :=
      spanMinLow_le (c :: rest) _ hcj
    have hc2 : ((c :: rest).getD j ⟨0, 0, 0, 0, 0⟩).low ≤ spanMaxLow (c :: rest) :=
      le_spanMaxLow (c :: rest) _ hcj
    have hb := bowlPoint_bounds c.low (lastD rest c).low (minLowOf c rest)
      (spanMaxLow (c :: rest)) (max 1 (((c :: rest).length - 1 : Nat) : Rat))
      ((((c :: rest).findIdx fun x => x.low == minLowOf c rest : Nat) : Rat) /
        max 1 (((c :: rest).length - 1 : Nat) : Rat)) (0 + j)
      ((c :: rest).getD j ⟨0, 0, 0, 0, 0⟩) hd hbp ht hs he hc1 hc2
    subst hpj
    refine ⟨?_, ?_, ?_⟩
    · rw [bowlPoint_time]
      exact ⟨htime.2.1, htime.2.2⟩
    · exact hb.1
    · exact hb.2

/-- Witness for the amended C3 at the emitted point (200, 135) of the concrete
three-candle span. -/
theorem claim_C3_witness :
    ((200 : Int) - EXTEND_SECONDS ≤ (⟨200, 135⟩ : Point).time ∧
      (⟨200, 135⟩ : Point).time ≤ 200 + EXTEND_SECONDS) ∧
    spanMinLow (spanCandlesOf [(⟨100, 100, 100, 100, 100⟩ : PriceData),
        ⟨200, 200, 200, 200, 200⟩, ⟨300, 100, 100, 100, 100⟩] 200 200) ≤
      (⟨200, 135⟩ : Point).value ∧
    (⟨200, 135⟩ : Point).value ≤
      (0.65 : Rat) * max (spanStartLow (spanCandlesOf
          [(⟨100, 100, 100, 100, 100⟩ : PriceData), ⟨200, 200, 200, 200, 200⟩,
            ⟨300, 100, 100, 100, 100⟩] 200 200))
          (spanEndLow (spanCandlesOf
          [(⟨100, 100, 100, 100, 100⟩ : PriceData), ⟨200, 200, 200, 200, 200⟩,
            ⟨300, 100, 100, 100, 100⟩] 200 200)) +
        (0.35 : Rat) * spanMaxLow (spanCandlesOf
          [(⟨100, 100, 100, 100, 100⟩ : PriceData), ⟨200, 200, 200, 200, 200⟩,
            ⟨300, 100, 100, 100, 100⟩] 200 200) :=
  claim_C3_amended _ 200 200 ⟨200, 135⟩ (by
    norm_num [spanCandlesOf, sortCandlesByTime, EXTEND_SECONDS, lineData,
      minLowOf, mapIdxFrom, bowlPoint, lastD, List.filter, List.insertionSort,
      List.orderedInsert, List.findIdx, List.findIdx.go])

/-! ### Claim C7: empty price series clears everything -/

/-- C7: for every input with an empty price series, the recompute clears the
candlestick data, the point-marker batch and the data of every existing
pattern line series, and creates no new series (the key list is unchanged);
this holds for every marker list and title. -/
theorem claim_C7_empty_price (h0 : List (Int × Handle)) (ms : List Marker)
    (title : String) :
    recompute h0 [] ms title = ⟨[], h0.map clearEntry, []⟩ ∧
    (h0.map clearEntry).map Prod.fst = h0.map Prod.fst ∧
    ((recompute h0 [] ms title).handles.all fun e => e.2.data.isEmpty) = true := by
  refine ⟨rfl, ?_, ?_⟩
  · simp [List.map_map, clearEntry, Function.comp]
  · show ((h0.map clearEntry).all fun e => e.2.data.isEmpty) = true
    simp [List.all_map, clearEntry, Function.comp]

/-! ### Claim C1: range segment construction (spec-modelled) -/

/-- C1: for every marker classified as a range-candidate (no bowl condition
and all four range fields non-null), the spec-modelled Range Segment Builder
emits the high line [(start, high), (end, high)] and the low line
[(start, low), (end, low)], keyed by nrb_id if present else by the marker
time. -/
theorem claim_C1_range_segments (isBP : Bool) (ms : List Marker) (m : Marker)
    (lo hi : Rat) (s e : Int)
    (hm : m ∈ ms) (hnb : isBowlMarker isBP m = false)
    (hlo : m.range_low = some lo) (hhi : m.range_high = some hi)
    (hst : m.range_start_time = some s) (het : m.range_end_time = some e) :
    (m.nrb_id.getD m.time,
      [(⟨s, hi⟩ : Point), ⟨e, hi⟩], [(⟨s, lo⟩ : Point), ⟨e, lo⟩]) ∈
      rangeSegments isBP ms := by
  unfold rangeSegments
  apply List.mem_map.mpr
  refine ⟨m, List.mem_filter.mpr ⟨hm, ?_⟩, ?_⟩
  · simp [isRangeCandidate, hnb, hlo, hhi, hst, het]
  · simp [hlo, hhi, hst, het]

/-- Witness for C1 at the claim instance range_low 100, range_high 110,
range_start_time 1000, range_end_time 2000 and no nrb_id, keyed by the marker
time 50. -/
theorem claim_C1_witness :
    ((50 : Int),
      [(⟨1000, 110⟩ : Point), ⟨2000, 110⟩], [(⟨1000, 100⟩ : Point), ⟨2000, 100⟩]) ∈
      rangeSegments false
        [{ time := 50, range_low := some 100, range_high := some 110,
           range_start_time := some 1000, range_end_time := some 2000 }] :=
  claim_C1_range_segments false
    [{ time := 50, range_low := some 100, range_high := some 110,
       range_start_time := some 1000, range_end_time := some 2000 }]
    { time := 50, range_low := some 100, range_high := some 110,
      range_start_time := some 1000, range_end_time := some 2000 }
    100 110 1000 2000 (by decide) (by decide) rfl rfl rfl rfl

/-! ### Claim C8: direction styling of the point-marker batch -/

/-- C8 counterexample: a Bullish Break marker, a Bearish Break marker and a
directionless marker are all rendered identically with the default styling
belowBar, #2196F3, circle; the component applies no direction-specific
override, refuting the claimed distinct fixed overrides. -/
theorem claim_C8_counterexample :
    otherMarkersOf false
      [{ time := 1, direction := some "Bullish Break" },
       { time := 1, direction := some "Bearish Break" },
       { time := 1 }] =
    [⟨1, "belowBar", "#2196F3", "circle", ""⟩, ⟨1, "belowBar", "#2196F3", "circle", ""⟩,
     ⟨1, "belowBar", "#2196F3", "circle", ""⟩] := by decide

/-- C8 amended: every non-bowl marker, regardless of direction, is rendered
with its own position, color and shape or the defaults belowBar, #2196F3,
circle, with text cleared (`renderPoint`); changing any marker direction
leaves the batch unchanged. -/
theorem claim_C8_amended (isBP : Bool) (ms : List Marker)
    (f : Marker → Option String) :
    otherMarkersOf isBP ms =
      (ms.filter (fun m => !(isBowlMarker isBP m))).map renderPoint ∧
    otherMarkersOf isBP (ms.map (fun m => { m with direction := f m })) =
      otherMarkersOf isBP ms := by
  constructor
  · rfl
  · unfold otherMarkersOf
    rw [List.filter_map, List.map_map]
    have h₁ : ((fun m => !(isBowlMarker isBP m)) ∘
        fun m => { m with direction := f m }) = fun m => !(isBowlMarker isBP m) := by
      funext m
      rfl
    rw [h₁]
    apply List.map_congr_left
    intro m _
    rfl

/-! ### Claim C5: classification partitions the marker list -/

/-- C5: for every marker list and title, the three-way classification (bowl,
spec-modelled range, plain point) is a partition: the three filtered lists
are disjoint and their multiset union is the input list (stated via counts),
and a marker satisfying a bowl condition is never classified as a range line
even if it carries all four range fields. -/
theorem claim_C5_partition (title : String) (ms : List Marker) (m : Marker) :
    ((ms.filter fun x => classify (isBowlPattern title) x == MarkerClass.bowl).count m +
     (ms.filter fun x => classify (isBowlPattern title) x == MarkerClass.range).count m +
     (ms.filter fun x => classify (isBowlPattern title) x == MarkerClass.point).count m =
       ms.count m) ∧
    (isBowlMarker (isBowlPattern title) m = true →
      classify (isBowlPattern title) m = MarkerClass.bowl) := by
  constructor
  · induction ms with
    | nil => simp
    | cons x tl ih =>
        rcases h : classify (isBowlPattern title) x <;>
          simp [List.filter_cons, h, List.count_cons, ih] <;> omega
  · intro h
    simp [classify, h]

/-- Witness for C5 on a bowl marker that also carries all four range fields:
it is classified bowl, not range, under a Bowl title. -/
theorem claim_C5_witness :
    (([mBowlWithRange].filter
        fun x => classify (isBowlPattern "Bowl") x == MarkerClass.bowl).count mBowlWithRange +
     ([mBowlWithRange].filter
        fun x => classify (isBowlPattern "Bowl") x == MarkerClass.range).count mBowlWithRange +
     ([mBowlWithRange].filter
        fun x => classify (isBowlPattern "Bowl") x == MarkerClass.point).count mBowlWithRange =
       [mBowlWithRange].count mBowlWithRange) ∧
    classify (isBowlPattern "Bowl") mBowlWithRange = MarkerClass.bowl :=
  ⟨(claim_C5_partition "Bowl" [mBowlWithRange] mBowlWithRange).1,
   (claim_C5_partition "Bowl" [mBowlWithRange] mBowlWithRange).2 (by decide)⟩

/-! ### Grouping lemmas -/

theorem insertGroup_lookup_self (gs : List (Int × List Marker)) (k : Int)
    (m : Marker) :
    lookupKey k (insertGroup gs k m) = some ((lookupKey k gs).getD [] ++ [m]) := by
  induction gs with
  | nil => simp [insertGroup, lookupKey]
  | cons e rest ih =>
      obtain ⟨k₁, l⟩ := e
      by_cases h : k₁ = k
      · subst h
        simp [insertGroup, lookupKey]
      · simp [insertGroup, lookupKey, h, ih]

theorem insertGroup_lookup_other (gs : List (Int × List Marker)) (k j : Int)
    (m : Marker) (hjk : j ≠ k) :
    lookupKey j (insertGroup gs k m) = lookupKey j gs := by
  induction gs with
  | nil => simp [insertGroup, lookupKey, Ne.symm hjk]
  | cons e rest ih =>
      obtain ⟨k₁, l⟩ := e
      by_cases h : k₁ = k
      · subst h
        have : ¬(k₁ = j) := fun h => hjk (h ▸ rfl)
        simp [insertGroup, lookupKey, this]
      · by_cases h₂ : k₁ = j
        · subst h₂
          simp [insertGroup, lookupKey, h]
        · simp [insertGroup, lookupKey, h, h₂, ih]

theorem insertGroup_keys (gs : List (Int × List Marker)) (k : Int) (m : Marker) :
    (insertGroup gs k m).map Prod.fst =
      if k ∈ gs.map Prod.fst then gs.map Prod.fst else gs.map Prod.fst ++ [k] := by
  induction gs with
  | nil => simp [insertGroup]
  | cons e rest ih =>
      obtain ⟨k₁, l⟩ := e
      by_cases h : k₁ = k
      · subst h
        simp [insertGroup]
      · by_cases h₂ : k ∈ rest.map Prod.fst <;>
          simp [insertGroup, h, h₂, ih, Ne.symm h]

theorem insertGroup_nodup_keys (gs : List (Int × List Marker)) (k : Int)
    (m : Marker) (h : (gs.map Prod.fst).Nodup) :
    ((insertGroup gs k m).map Prod.fst).Nodup := by
  rw [insertGroup_keys]
  by_cases hk : k ∈ gs.map Prod.fst
  · rwa [if_pos hk]
  · rw [if_neg hk]
    rw [List.nodup_append]
    exact ⟨h, List.nodup_singleton _, by simpa using hk⟩

theorem lookup_getD_mono (ms : List Marker) (acc : List (Int × List Marker))
    (k : Int) (m : Marker) (h : m ∈ (lookupKey k acc).getD []) :
    m ∈ (lookupKey k (ms.foldl
      (fun gs x => insertGroup gs (x.pattern_id.getD (-1)) x) acc)).getD [] := by
  induction ms generalizing acc with
  | nil => exact h
  | cons x tl ih =>
      simp only [List.foldl_cons]
      apply ih
      by_cases hk : x.pattern_id.getD (-1) = k
      · rw [hk, insertGroup_lookup_self]
        simp only [Option.getD_some]
        exact List.mem_append_left _ h
      · rw [insertGroup_lookup_other _ _ _ _ (fun hc => hk hc.symm)]
        exact h

theorem mem_lookup_groupFold (ms : List Marker) (acc : List (Int × List Marker))
    (m : Marker) (hm : m ∈ ms) :
    m ∈ (lookupKey (m.pattern_id.getD (-1)) (ms.foldl
      (fun gs x => insertGroup gs (x.pattern_id.getD (-1)) x) acc)).getD [] := by
  induction ms generalizing acc with
  | nil => simp at hm
  | cons x tl ih =>
      rcases List.mem_cons.mp hm with rfl | hm
      · simp only [List.foldl_cons]
        apply lookup_getD_mono
        rw [insertGroup_lookup_self]
        simp
      · simp only [List.foldl_cons]
        exact ih _ hm

theorem mem_lookup_groupByPatternId (ms : List Marker) (m : Marker) (hm : m ∈ ms) :
    m ∈ (lookupKey (m.pattern_id.getD (-1)) (groupByPatternId ms)).getD [] :=
  mem_lookup_groupFold ms [] m hm

theorem lookup_isSome_iff_mem_keys (gs : List (Int × List Marker)) (k : Int) :
    (lookupKey k gs).isSome = true ↔ k ∈ gs.map Prod.fst := by
  induction gs with
  | nil => simp [lookupKey]
  | cons e rest ih =>
      obtain ⟨k₁, l⟩ := e
      by_cases h : k₁ = k
      · subst h
        simp [lookupKey]
      · simp [lookupKey, h, ih, Ne.symm h]

theorem groupFold_nodup_keys (ms : List Marker) (acc : List (Int × List Marker))
    (h : (acc.map Prod.fst).Nodup) :
    ((ms.foldl (fun gs x => insertGroup gs (x.pattern_id.getD (-1)) x) acc).map
      Prod.fst).Nodup := by
  induction ms generalizing acc with
  | nil => exact h
  | cons x tl ih =>
      simp only [List.foldl_cons]
      exact ih _ (insertGroup_nodup_keys _ _ _ h)

theorem groupByPatternId_nodup_keys (ms : List Marker) :
    ((groupByPatternId ms).map Prod.fst).Nodup :=
  groupFold_nodup_keys ms [] (by simp)

theorem clusterFold_nodup_keys (ms : List Marker)
    (st : Int × Int × List (Int × List Marker))
    (h : (st.2.2.map Prod.fst).Nodup) :
    (((ms.foldl clusterStep st).2.2).map Prod.fst).Nodup := by
  induction ms generalizing st with
  | nil => exact h
  | cons x tl ih =>
      simp only [List.foldl_cons]
      exact ih _ (insertGroup_nodup_keys _ _ _ h)

theorem clusterByTime_nodup_keys (ms : List Marker) :
    ((clusterByTime ms).map Prod.fst).Nodup :=
  clusterFold_nodup_keys _ _ (by simp)

theorem bowlsOf_nodup_keys (isBP : Bool) (ms : List Marker) :
    ((bowlsOf isBP ms).map Prod.fst).Nodup := by
  unfold bowlsOf
  by_cases h : (groupByPatternId (ms.filter (isBowlMarker isBP))).length = 1 ∧
      hasKey (groupByPatternId (ms.filter (isBowlMarker isBP))) (-1) = true ∧
      (ms.filter (isBowlMarker isBP)).length > 0
  · simp only [if_pos h]
    exact clusterByTime_nodup_keys _
  · simp only [if_neg h]
    exact groupByPatternId_nodup_keys _

theorem one_lt_length_of_two_mem (l : List Int) (a b : Int) (ha : a ∈ l)
    (hb : b ∈ l) (hab : a ≠ b) : 1 < l.length := by
  match l with
  | [] => simp at ha
  | [x] =>
      simp at ha hb
      exact absurd (ha.trans hb.symm) hab
  | x :: y :: tl => simp [Nat.lt_add_of_pos_left]

theorem groupFold_const_key (ms : List Marker) (l : List Marker)
    (h : ∀ m ∈ ms, m.pattern_id.getD (-1) = -1) :
    ms.foldl (fun gs x => insertGroup gs (x.pattern_id.getD (-1)) x) [(-1, l)] =
      [(-1, l ++ ms)] := by
  induction ms generalizing l with
  | nil => simp
  | cons x tl ih =>
      simp only [List.foldl_cons]
      rw [h x (List.mem_cons_self _ _)]
      have hins : insertGroup [(-1, l)] (-1) x = [(-1, l ++ [x])] := by
        simp [insertGroup]
      rw [hins, ih (l ++ [x]) (fun m hm => h m (List.mem_cons_of_mem _ hm))]
      simp

theorem groupByPatternId_all_keyless (ms : List Marker) (hne : ms ≠ [])
    (h : ∀ m ∈ ms, m.pattern_id = none) :
    groupByPatternId ms = [(-1, ms)] := by
  match ms, hne with
  | m :: tl, _ =>
      unfold groupByPatternId
      simp only [List.foldl_cons]
      rw [h m (List.mem_cons_self _ _)]
      have hins : insertGroup [] (none.getD (-1)) m = [(-1, [m])] := by
        simp [insertGroup]
      rw [hins, groupFold_const_key tl [m] (fun x hx => by
        rw [h x (List.mem_cons_of_mem _ hx)]
        rfl)]
      simp

theorem bowlsOf_all_keyless (isBP : Bool) (ms : List Marker)
    (hne : ms.filter (isBowlMarker isBP) ≠ [])
    (h : ∀ m ∈ ms.filter (isBowlMarker isBP), m.pattern_id = none) :
    bowlsOf isBP ms = clusterByTime (ms.filter (isBowlMarker isBP)) := by
  show (if (groupByPatternId (ms.filter (isBowlMarker isBP))).length = 1 ∧
      hasKey (groupByPatternId (ms.filter (isBowlMarker isBP))) (-1) = true ∧
      (ms.filter (isBowlMarker isBP)).length > 0
    then clusterByTime (ms.filter (isBowlMarker isBP))
    else groupByPatternId (ms.filter (isBowlMarker isBP))) =
    clusterByTime (ms.filter (isBowlMarker isBP))
  rw [groupByPatternId_all_keyless _ hne h, if_pos]
  refine ⟨rfl, ?_, ?_⟩
  · simp [hasKey]
  · exact List.length_pos.mpr hne

/-! ### Claim C2: the fallback clustering trigger -/

/-- C2 counterexample: three bowl markers all sharing the present pattern_id 7
at times 1000, 1000 + 29 days, 1000 + 60 days stay one single group keyed 7;
the temporal fallback is not applied, refuting the claim that a shared present
id triggers clustering into two time clusters. -/
theorem claim_C2_counterexample :
    bowlsOf true [mBowlId7 1000, mBowlId7 2506600, mBowlId7 6185000] =
      [(7, [mBowlId7 1000, mBowlId7 2506600, mBowlId7 6185000])] ∧
    (bowlsOf true [mBowlId7 1000, mBowlId7 2506600, mBowlId7 6185000]).length = 1 := by
  decide

/-- C2 amended: the temporal fallback applies exactly when every bowl
candidate lacks pattern_id (the grouping collapses to the single synthetic key
-1) and at least one candidate exists; then candidates are sorted by time
ascending and a new cluster starts when the gap to the previous time exceeds
2,592,000 seconds, clusters numbered from 1: three id-less candidates at
t, t + 29 days, t + 60 days (t > 0) are partitioned into clusters
{t, t + 29d} and {t + 60d}. -/
theorem claim_C2_amended :
    (∀ (isBP : Bool) (ms : List Marker),
      ms.filter (isBowlMarker isBP) ≠ [] →
      (∀ m ∈ ms.filter (isBowlMarker isBP), m.pattern_id = none) →
      bowlsOf isBP ms = clusterByTime (ms.filter (isBowlMarker isBP))) ∧
    (∀ t : Int, 0 < t →
      bowlsOf true [mBowlText t, mBowlText (t + 2505600), mBowlText (t + 5184000)] =
        [(1, [mBowlText t, mBowlText (t + 2505600)]),
         (2, [mBowlText (t + 5184000)])]) := by
  constructor
  · exact bowlsOf_all_keyless
  · intro t ht
    have hb : ∀ x : Int, isBowlMarker true (mBowlText x) = true := fun x => rfl
    have hfil : [mBowlText t, mBowlText (t + 2505600),
        mBowlText (t + 5184000)].filter (isBowlMarker true) =
        [mBowlText t, mBowlText (t + 2505600), mBowlText (t + 5184000)] := by
      simp [List.filter, hb]
    rw [bowlsOf_all_keyless true _ (by rw [hfil]; simp) (by
      rw [hfil]
      intro m hm
      simp only [List.mem_cons, List.not_mem_nil, or_false] at hm
      rcases hm with rfl | rfl | rfl <;> rfl), hfil]
    have hsort : sortByTime [mBowlText t, mBowlText (t + 2505600),
        mBowlText (t + 5184000)] =
        [mBowlText t, mBowlText (t + 2505600), mBowlText (t + 5184000)] := by
      have h12 : (mBowlText t).time ≤ (mBowlText (t + 2505600)).time := by
        simp [mBowlText]
      have h23 : (mBowlText (t + 2505600)).time ≤ (mBowlText (t + 5184000)).time := by
        simp [mBowlText]
      simp [sortByTime, List.insertionSort, List.orderedInsert, h12, h23]
    have hne0 : ¬(t = 0) := by omega
    have s1 : clusterStep (0, 0, []) (mBowlText t) = (1, t, [(1, [mBowlText t])]) := by
      norm_num [clusterStep, mBowlText, insertGroup]
    have s2 : clusterStep (1, t, [(1, [mBowlText t])]) (mBowlText (t + 2505600)) =
        (1, t + 2505600, [(1, [mBowlText t, mBowlText (t + 2505600)])]) := by
      norm_num [clusterStep, mBowlText, insertGroup, TIME_CLUSTER_THRESHOLD, hne0]
    have s3 : clusterStep (1, t + 2505600,
          [(1, [mBowlText t, mBowlText (t + 2505600)])]) (mBowlText (t + 5184000)) =
        (2, t + 5184000, [(1, [mBowlText t, mBowlText (t + 2505600)]),
          (2, [mBowlText (t + 5184000)])]) := by
      norm_num [clusterStep, mBowlText, insertGroup, TIME_CLUSTER_THRESHOLD]
    unfold clusterByTime
    rw [hsort, List.foldl_cons, s1, List.foldl_cons, s2, List.foldl_cons, s3,
      List.foldl_nil]

/-- Witness for the amended C2: the fallback trigger at three concrete id-less
markers and the concrete clustering at t = 1000. -/
theorem claim_C2_witness :
    bowlsOf true [mBowlText 1000, mBowlText 3506600, mBowlText 6185000] =
      clusterByTime ([mBowlText 1000, mBowlText 3506600,
        mBowlText 6185000].filter (isBowlMarker true)) ∧
    bowlsOf true [mBowlText 1000, mBowlText (1000 + 2505600), mBowlText (1000 + 5184000)] =
      [(1, [mBowlText 1000, mBowlText (1000 + 2505600)]),
       (2, [mBowlText (1000 + 5184000)])] :=
  ⟨claim_C2_amended.1 true [mBowlText 1000, mBowlText 3506600, mBowlText 6185000]
      (by decide) (by decide),
   claim_C2_amended.2 1000 (by decide)⟩

/-! ### Claim C10: mixed ids with id-less candidates -/

/-- C10: when the bowl candidates carry at least two distinct present
pattern_id values together with id-less candidates, the temporal fallback is
not applied (the grouping by pattern_id stands), every id-less candidate lands
in the single group keyed by the synthetic id -1 (that key occurs exactly
once), and the color of instance -1 is the palette entry at index
abs(-1) mod 10 = 1, which is #FF6D00. -/
theorem claim_C10_mixed_ids (isBP : Bool) (ms : List Marker)
    (m₀ m₁ m₂ : Marker) (a b : Int)
    (h₀ : m₀ ∈ ms.filter (isBowlMarker isBP)) (hp₀ : m₀.pattern_id = none)
    (h₁ : m₁ ∈ ms.filter (isBowlMarker isBP)) (hp₁ : m₁.pattern_id = some a)
    (h₂ : m₂ ∈ ms.filter (isBowlMarker isBP)) (hp₂ : m₂.pattern_id = some b)
    (hab : a ≠ b) :
    bowlsOf isBP ms = groupByPatternId (ms.filter (isBowlMarker isBP)) ∧
    m₀ ∈ (lookupKey (-1) (bowlsOf isBP ms)).getD [] ∧
    ((bowlsOf isBP ms).map Prod.fst).count (-1) = 1 ∧
    colorOf (-1) = "#FF6D00" := by
  have hma := mem_lookup_groupByPatternId _ m₁ h₁
  have hmb := mem_lookup_groupByPatternId _ m₂ h₂
  rw [hp₁] at hma
  rw [hp₂] at hmb
  simp only [Option.getD_some] at hma hmb
  have hka : a ∈ (groupByPatternId (ms.filter (isBowlMarker isBP))).map Prod.fst := by
    rw [← lookup_isSome_iff_mem_keys]
    rcases hl : lookupKey a (groupByPatternId (ms.filter (isBowlMarker isBP))) with _ | l
    · rw [hl] at hma
      simp at hma
    · simp
  have hkb : b ∈ (groupByPatternId (ms.filter (isBowlMarker isBP))).map Prod.fst := by
    rw [← lookup_isSome_iff_mem_keys]
    rcases hl : lookupKey b (groupByPatternId (ms.filter (isBowlMarker isBP))) with _ | l
    · rw [hl] at hmb
      simp at hmb
    · simp
  have hlen : 1 < (groupByPatternId (ms.filter (isBowlMarker isBP))).length := by
    have := one_lt_length_of_two_mem _ a b hka hkb hab
    simpa using this
  have hne : ¬((groupByPatternId (ms.filter (isBowlMarker isBP))).length = 1 ∧
      hasKey (groupByPatternId (ms.filter (isBowlMarker isBP))) (-1) = true ∧
      (ms.filter (isBowlMarker isBP)).length > 0) := by
    rintro ⟨h, -, -⟩
    omega
  have hbowls : bowlsOf isBP ms = groupByPatternId (ms.filter (isBowlMarker isBP)) := by
    unfold bowlsOf
    simp only [if_neg hne]
  refine ⟨hbowls, ?_, ?_, rfl⟩
  · rw [hbowls]
    have := mem_lookup_groupByPatternId _ m₀ h₀
    rwa [hp₀] at this
  · rw [hbowls]
    apply List.count_eq_one_of_mem (groupByPatternId_nodup_keys _)
    rw [← lookup_isSome_iff_mem_keys]
    have hm0 := mem_lookup_groupByPatternId _ m₀ h₀
    rw [hp₀] at hm0
    simp only [Option.getD_none] at hm0
    rcases hl : lookupKey (-1) (groupByPatternId (ms.filter (isBowlMarker isBP))) with _ | l
    · rw [hl] at hm0
      simp at hm0
    · simp

/-- Witness for C10 with one id-less text-flagged bowl marker and two markers
with distinct present ids 1 and 2. -/
theorem claim_C10_witness :
    bowlsOf true [mBowlText 1, { time := 2, pattern_id := some 1 },
        { time := 3, pattern_id := some 2 }] =
      groupByPatternId ([mBowlText 1, { time := 2, pattern_id := some 1 },
        { time := 3, pattern_id := some 2 }].filter (isBowlMarker true)) ∧
    mBowlText 1 ∈ (lookupKey (-1) (bowlsOf true [mBowlText 1,
        { time := 2, pattern_id := some 1 },
        { time := 3, pattern_id := some 2 }])).getD [] ∧
    ((bowlsOf true [mBowlText 1, { time := 2, pattern_id := some 1 },
        { time := 3, pattern_id := some 2 }]).map Prod.fst).count (-1) = 1 ∧
    colorOf (-1) = "#FF6D00" :=
  claim_C10_mixed_ids true _ (mBowlText 1) { time := 2, pattern_id := some 1 }
    { time := 3, pattern_id := some 2 } 1 2 (by decide) rfl (by decide) rfl
    (by decide) rfl (by decide)

/-! ### Series lifecycle lemmas -/

theorem hasKey_iff_mem (gs : List (Int × α)) (k : Int) :
    hasKey gs k = true ↔ k ∈ gs.map Prod.fst := by
  simp [hasKey, List.any_eq_true, List.mem_map]

theorem mem_setEntry (s : List (Int × Handle)) (k : Int) (h : Handle)
    (e : Int × Handle) (he : e ∈ setEntry s k h) :
    e = (k, h) ∨ (e ∈ s ∧ e.1 ≠ k) := by
  unfold setEntry at he
  by_cases hany : s.any (fun e => decide (e.1 = k))
  · rw [if_pos hany] at he
    obtain ⟨x, hx, hfx⟩ := List.mem_map.mp he
    by_cases hxk : x.1 = k
    · rw [if_pos hxk] at hfx
      exact Or.inl hfx.symm
    · rw [if_neg hxk] at hfx
      exact Or.inr ⟨hfx ▸ hx, hfx ▸ hxk⟩
  · rw [if_neg hany] at he
    rcases List.mem_append.mp he with he | he
    · refine Or.inr ⟨he, ?_⟩
      simp only [List.any_eq_true, decide_eq_true_eq, not_exists, not_and] at hany
      exact hany e he
    · simp only [List.mem_singleton] at he
      exact Or.inl he

theorem setEntry_keys (s : List (Int × Handle)) (k : Int) (h : Handle) :
    (setEntry s k h).map Prod.fst =
      if k ∈ s.map Prod.fst then s.map Prod.fst else s.map Prod.fst ++ [k] := by
  unfold setEntry
  by_cases hany : s.any (fun e => decide (e.1 = k))
  · rw [if_pos hany]
    have hk : k ∈ s.map Prod.fst := by
      simp only [List.any_eq_true, decide_eq_true_eq] at hany
      obtain ⟨g, hg, rfl⟩ := hany
      exact List.mem_map.mpr ⟨g, hg, rfl⟩
    rw [if_pos hk, List.map_map]
    apply List.map_congr_left
    intro e _
    by_cases hek : e.1 = k
    · simp [hek]
    · simp [hek]
  · rw [if_neg hany]
    have hk : k ∉ s.map Prod.fst := by
      simp only [List.any_eq_true, decide_eq_true_eq, not_exists, not_and] at hany
      intro hc
      obtain ⟨g, hg, rfl⟩ := List.mem_map.mp hc
      exact hany g hg rfl
    rw [if_neg hk]
    simp

theorem mem_keys_setEntry_self (s : List (Int × Handle)) (k : Int) (h : Handle) :
    k ∈ (setEntry s k h).map Prod.fst := by
  rw [setEntry_keys]
  by_cases hk : k ∈ s.map Prod.fst
  · rwa [if_pos hk]
  · rw [if_neg hk]
    simp

theorem mem_keys_setEntry_mono (s : List (Int × Handle)) (j k : Int) (h : Handle)
    (hj : j ∈ s.map Prod.fst) : j ∈ (setEntry s k h).map Prod.fst := by
  rw [setEntry_keys]
  by_cases hk : k ∈ s.map Prod.fst
  · rwa [if_pos hk]
  · rw [if_neg hk]
    exact List.mem_append_left _ hj

theorem mem_keys_applyWrites_mono (ws : List (Int × Handle))
    (s : List (Int × Handle)) (j : Int) (hj : j ∈ s.map Prod.fst) :
    j ∈ (applyWrites s ws).map Prod.fst := by
  induction ws generalizing s with
  | nil => exact hj
  | cons w tl ih =>
      exact ih _ (mem_keys_setEntry_mono _ _ _ _ hj)

theorem mem_applyWrites (ws : List (Int × Handle)) (s : List (Int × Handle))
    (e : Int × Handle) (he : e ∈ applyWrites s ws) :
    e.1 ∈ ws.map Prod.fst ∨ e ∈ s := by
  induction ws generalizing s with
  | nil => exact Or.inr he
  | cons w tl ih =>
      rcases ih _ he with h | h
      · exact Or.inl (List.mem_cons_of_mem _ h)
      · rcases mem_setEntry _ _ _ _ h with rfl | ⟨hmem, -⟩
        · exact Or.inl (List.mem_cons_self _ _)
        · exact Or.inr hmem

theorem setEntry_of_mem (s : List (Int × Handle)) (k : Int) (h : Handle)
    (hk : k ∈ s.map Prod.fst) :
    setEntry s k h = s.map (fun e => if e.1 = k then (k, h) else e) := by
  unfold setEntry
  rw [if_pos]
  exact (hasKey_iff_mem s k).mpr hk

theorem setEntry_of_not_mem (s : List (Int × Handle)) (k : Int) (h : Handle)
    (hk : k ∉ s.map Prod.fst) :
    setEntry s k h = s ++ [(k, h)] := by
  unfold setEntry
  rw [if_neg]
  intro hc
  exact hk ((hasKey_iff_mem s k).mp hc)

theorem map_replace_keys (s : List (Int × Handle)) (k : Int) (h : Handle) :
    (s.map (fun e => if e.1 = k then (k, h) else e)).map Prod.fst =
      s.map Prod.fst := by
  rw [List.map_map]
  apply List.map_congr_left
  intro e _
  by_cases hek : e.1 = k
  · simp [hek]
  · simp [hek]

theorem setEntry_comm (s : List (Int × Handle)) (j k : Int) (h₁ h₂ : Handle)
    (hkj : k ≠ j) (hk : k ∈ s.map Prod.fst) :
    setEntry (setEntry s j h₂) k h₁ = setEntry (setEntry s k h₁) j h₂ := by
  by_cases hj : j ∈ s.map Prod.fst
  · rw [setEntry_of_mem s j h₂ hj,
      setEntry_of_mem _ k h₁ (by rw [map_replace_keys]; exact hk),
      setEntry_of_mem s k h₁ hk,
      setEntry_of_mem _ j h₂ (by rw [map_replace_keys]; exact hj)]
    rw [List.map_map, List.map_map]
    apply List.map_congr_left
    intro e _
    by_cases hek : e.1 = k
    · by_cases hej : e.1 = j
      · exact absurd (hek ▸ hej) hkj
      · simp [Function.comp, hek, hej, hkj]
    · by_cases hej : e.1 = j
      · simp [Function.comp, hek, hej, Ne.symm hkj]
      · simp [Function.comp, hek, hej]
  · rw [setEntry_of_not_mem s j h₂ hj,
      setEntry_of_mem _ k h₁ (by
        rw [List.map_append]
        exact List.mem_append_left _ hk),
      setEntry_of_mem s k h₁ hk,
      setEntry_of_not_mem _ j h₂ (by rw [map_replace_keys]; exact hj)]
    rw [List.map_append]
    simp only [List.map_cons, List.map_nil]
    congr 1
    rw [if_neg]
    intro hc
    exact hkj hc.symm

theorem setEntry_idem (s : List (Int × Handle)) (k : Int) (h : Handle) :
    setEntry (setEntry s k h) k h = setEntry s k h := by
  by_cases hk : k ∈ s.map Prod.fst
  · rw [setEntry_of_mem s k h hk,
      setEntry_of_mem _ k h (by rw [map_replace_keys]; exact hk),
      List.map_map]
    apply List.map_congr_left
    intro e _
    by_cases hek : e.1 = k
    · simp [Function.comp, hek]
    · simp [Function.comp, hek]
  · rw [setEntry_of_not_mem s k h hk,
      setEntry_of_mem _ k h (by
        rw [List.map_append]
        simp)]
    rw [List.map_append]
    simp only [List.map_cons, List.map_nil, if_pos rfl]
    congr 1
    have : ∀ e ∈ s, (if e.1 = k then (k, h) else e) = e := by
      intro e he
      rw [if_neg]
      intro hc
      exact hk (List.mem_map.mpr ⟨e, he, hc⟩)
    rw [List.map_congr_left this]
    exact List.map_id _

theorem applyWrites_comm (ws : List (Int × Handle)) (s : List (Int × Handle))
    (k : Int) (h : Handle) (hk : k ∈ s.map Prod.fst)
    (hkw : k ∉ ws.map Prod.fst) :
    setEntry (applyWrites s ws) k h = applyWrites (setEntry s k h) ws := by
  induction ws generalizing s with
  | nil => rfl
  | cons w tl ih =>
      have hkw1 : k ≠ w.1 := by
        intro hc
        exact hkw (by simp [hc])
      have hkt : k ∉ tl.map Prod.fst := by
        intro hc
        exact hkw (List.mem_cons_of_mem _ hc)
      show setEntry (applyWrites (setEntry s w.1 w.2) tl) k h =
        applyWrites (setEntry (setEntry s k h) w.1 w.2) tl
      rw [ih (setEntry s w.1 w.2) (mem_keys_setEntry_mono _ _ _ _ hk) hkt]
      rw [setEntry_comm s w.1 k h w.2 hkw1 hk]

theorem applyWrites_idem (ws : List (Int × Handle)) (s : List (Int × Handle))
    (hnd : (ws.map Prod.fst).Nodup) :
    applyWrites (applyWrites s ws) ws = applyWrites s ws := by
  induction ws generalizing s with
  | nil => rfl
  | cons w tl ih =>
      simp only [List.map_cons, List.nodup_cons] at hnd
      obtain ⟨hw, hnd'⟩ := hnd
      show applyWrites (setEntry (applyWrites (setEntry s w.1 w.2) tl) w.1 w.2) tl =
        applyWrites (setEntry s w.1 w.2) tl
      rw [applyWrites_comm tl (setEntry s w.1 w.2) w.1 w.2
        (mem_keys_setEntry_self _ _ _) hw]
      rw [setEntry_idem]
      exact ih _ hnd'

theorem drawBowls_eq_applyWrites (fpd : List PriceData)
    (bowls : List (Int × List Marker)) (hs : List (Int × Handle)) :
    drawBowls fpd hs bowls = applyWrites hs (writesOf fpd bowls) := by
  induction bowls generalizing hs with
  | nil => rfl
  | cons g tl ih =>
      show drawBowls fpd (drawStep fpd hs g) tl = _
      unfold writesOf
      rw [List.filterMap_cons]
      rcases hw : writeOf fpd g with _ | w
      · have hd : drawStep fpd hs g = hs := by
          unfold drawStep
          unfold writeOf at hw
          rcases hsort : sortByTime g.2 with _ | ⟨m₀, rest⟩
          · rfl
          · rw [hsort] at hw
            simp at hw
        rw [hd]
        exact ih hs
      · have hd : drawStep fpd hs g = setEntry hs w.1 w.2 := by
          unfold drawStep
          unfold writeOf at hw
          rcases hsort : sortByTime g.2 with _ | ⟨m₀, rest⟩
          · rw [hsort] at hw
            simp at hw
          · rw [hsort] at hw
            simp only [Option.some.injEq] at hw
            rw [← hw]
        rw [hd]
        exact ih _

theorem writesOf_keys_sublist (fpd : List PriceData)
    (bowls : List (Int × List Marker)) :
    ((writesOf fpd bowls).map Prod.fst).Sublist (bowls.map Prod.fst) := by
  induction bowls with
  | nil => simp [writesOf]
  | cons g tl ih =>
      unfold writesOf
      rw [List.filterMap_cons]
      rcases hw : writeOf fpd g with _ | w
      · exact (ih).cons _
      · have hk : w.1 = g.1 := by
          unfold writeOf at hw
          rcases hsort : sortByTime g.2 with _ | ⟨m₀, rest⟩
          · rw [hsort] at hw
            simp at hw
          · rw [hsort] at hw
            simp only [Option.some.injEq] at hw
            rw [← hw]
        simp only [List.map_cons, hk]
        exact (ih).cons₂ _

theorem writesOf_keys_nodup (isBP : Bool) (ms : List Marker)
    (fpd : List PriceData) :
    ((writesOf fpd (bowlsOf isBP ms)).map Prod.fst).Nodup :=
  (bowlsOf_nodup_keys isBP ms).sublist (writesOf_keys_sublist _ _)

theorem clearEntry_eq_self (e : Int × Handle) (h : e.2.data = []) :
    clearEntry e = e := by
  obtain ⟨k, c, d⟩ := e
  simp only at h
  subst h
  rfl

theorem applyWrites_cleanup_cleared (h0 : List (Int × Handle))
    (bowls : List (Int × List Marker)) (fpd : List PriceData) (k : Int)
    (hd : Handle)
    (hmem : (k, hd) ∈ applyWrites (cleanupHandles h0 bowls) (writesOf fpd bowls))
    (hk : k ∉ bowls.map Prod.fst) : hd.data = [] := by
  rcases mem_applyWrites _ _ _ hmem with h | h
  · exact absurd ((writesOf_keys_sublist fpd bowls).subset h) hk
  · unfold cleanupHandles at h
    obtain ⟨e, he, hfe⟩ := List.mem_map.mp h
    by_cases hkey : hasKey bowls e.1 = true
    · rw [if_pos hkey] at hfe
      rw [hfe] at hkey
      exact absurd ((hasKey_iff_mem _ _).mp hkey) hk
    · rw [if_neg hkey] at hfe
      unfold clearEntry at hfe
      have := congrArg Prod.snd hfe
      simp only at this
      rw [← this]

theorem handles_cleared (h0 : List (Int × Handle)) (pd : List PriceData)
    (ms : List Marker) (title : String) (k : Int) (hd : Handle)
    (hmem : (k, hd) ∈ (recompute h0 pd ms title).handles)
    (hk : k ∉ relevantKeys pd ms title) : hd.data = [] := by
  unfold recompute at hmem
  unfold relevantKeys at hk
  by_cases hpd : pd.length > 0
  · rw [if_pos hpd] at hmem
    rw [if_pos hpd] at hk
    have hmem₂ : (k, hd) ∈ drawBowls (formattedPriceData pd)
        (cleanupHandles h0 (bowlsOf (isBowlPattern title) ms))
        (bowlsOf (isBowlPattern title) ms) := hmem
    rw [drawBowls_eq_applyWrites] at hmem₂
    exact applyWrites_cleanup_cleared h0 _ _ k hd hmem₂ hk
  · rw [if_neg hpd] at hmem
    have hmem₂ : (k, hd) ∈ h0.map clearEntry := hmem
    obtain ⟨e, he, hfe⟩ := List.mem_map.mp hmem₂
    unfold clearEntry at hfe
    have := congrArg Prod.snd hfe
    simp only at this
    rw [← this]

theorem cleanupHandles_drawn (fpd : List PriceData)
    (bowls : List (Int × List Marker)) (h0 : List (Int × Handle)) :
    cleanupHandles
      (applyWrites (cleanupHandles h0 bowls) (writesOf fpd bowls)) bowls =
    applyWrites (cleanupHandles h0 bowls) (writesOf fpd bowls) := by
  show (applyWrites (cleanupHandles h0 bowls) (writesOf fpd bowls)).map
      (fun e => if hasKey bowls e.1 then e else clearEntry e) =
    applyWrites (cleanupHandles h0 bowls) (writesOf fpd bowls)
  have hall : ∀ e ∈ applyWrites (cleanupHandles h0 bowls) (writesOf fpd bowls),
      (if hasKey bowls e.1 then e else clearEntry e) = e := by
    intro e he
    by_cases hkey : hasKey bowls e.1 = true
    · rw [if_pos hkey]
    · rw [if_neg hkey]
      apply clearEntry_eq_self
      exact applyWrites_cleanup_cleared h0 bowls fpd e.1 e.2 he
        (fun hc => hkey ((hasKey_iff_mem _ _).mpr hc))
  rw [List.map_congr_left hall]
  exact List.map_id _

/-! ### Claims C6 and C9: handle lifecycle -/

/-- C6: every handle in the key-to-handle mapping after a recompute whose key
is not in the currently-relevant set (the bowl keys of the cycle, empty when
the price series is empty) has empty data; in particular a pattern key present
in cycle N and absent in cycle N + 1 has its data cleared after cycle N + 1. -/
theorem claim_C6_stale_cleanup (h0 : List (Int × Handle)) (pd : List PriceData)
    (ms : List Marker) (title : String) (k : Int) (hd : Handle)
    (hmem : (k, hd) ∈ (recompute h0 pd ms title).handles)
    (hk : k ∉ relevantKeys pd ms title) : hd.data = [] :=
  handles_cleared h0 pd ms title k hd hmem hk

/-- Witness for C6: pattern id 5 is drawn in cycle N (title Bowl) and absent
from cycle N + 1 (only id 6 remains), so the id-5 handle carries empty data
after cycle N + 1. -/
theorem claim_C6_witness : (Handle.mk "#00E676" []).data = [] :=
  claim_C6_stale_cleanup
    (recompute [] [⟨100, 1, 1, 1, 1⟩] [{ time := 100, pattern_id := some 5 }]
      "Bowl").handles
    [⟨100, 1, 1, 1, 1⟩] [{ time := 100, pattern_id := some 6 }] "Bowl"
    5 ⟨"#00E676", []⟩
    (by
      norm_num [recompute, formattedPriceData, bowlsOf, isBowlPattern,
        isBowlMarker, hasBowlText, groupByPatternId, insertGroup, hasKey,
        cleanupHandles, drawBowls, drawStep, sortByTime, List.insertionSort,
        List.orderedInsert, spanCandlesOf, sortCandlesByTime, EXTEND_SECONDS,
        lineData, minLowOf, mapIdxFrom, bowlPoint, setEntry, colorOf, bowlColors,
        lastD, clearEntry, List.filter, List.foldl, List.findIdx, List.findIdx.go])
    (by decide)

/-- C9: the recompute is idempotent: running it a second time on the handle
state produced by the first run with the same price series, markers and title
yields the identical result record (same candle data, same key-to-handle
mapping with the same data and colors, same point-marker batch). -/
theorem claim_C9_idempotent (h0 : List (Int × Handle)) (pd : List PriceData)
    (ms : List Marker) (title : String) :
    recompute ((recompute h0 pd ms title).handles) pd ms title =
      recompute h0 pd ms title := by
  by_cases hpd : pd.length > 0
  · have h1 : (recompute h0 pd ms title).handles =
        drawBowls (formattedPriceData pd)
          (cleanupHandles h0 (bowlsOf (isBowlPattern title) ms))
          (bowlsOf (isBowlPattern title) ms) := by
      unfold recompute
      rw [if_pos hpd]
    have h2 : recompute ((recompute h0 pd ms title).handles) pd ms title =
        ⟨formattedPriceData pd,
         drawBowls (formattedPriceData pd)
           (cleanupHandles ((recompute h0 pd ms title).handles)
             (bowlsOf (isBowlPattern title) ms))
           (bowlsOf (isBowlPattern title) ms),
         otherMarkersOf (isBowlPattern title) ms⟩ := by
      unfold recompute
      rw [if_pos hpd]
    have h3 : recompute h0 pd ms title =
        ⟨formattedPriceData pd,
         drawBowls (formattedPriceData pd)
           (cleanupHandles h0 (bowlsOf (isBowlPattern title) ms))
           (bowlsOf (isBowlPattern title) ms),
         otherMarkersOf (isBowlPattern title) ms⟩ := by
      unfold recompute
      rw [if_pos hpd]
    rw [h1] at h2
    rw [h1, h2, h3]
    congr 1
    rw [drawBowls_eq_applyWrites, drawBowls_eq_applyWrites]
    rw [cleanupHandles_drawn]
    exact applyWrites_idem _ _ (writesOf_keys_nodup (isBowlPattern title) ms _)
  · have h1 : (recompute h0 pd ms title).handles = h0.map clearEntry := by
      unfold recompute
      rw [if_neg hpd]
    have h2 : recompute ((recompute h0 pd ms title).handles) pd ms title =
        ⟨[], ((recompute h0 pd ms title).handles).map clearEntry, []⟩ := by
      unfold recompute
      rw [if_neg hpd]
    have h3 : recompute h0 pd ms title = ⟨[], h0.map clearEntry, []⟩ := by
      unfold recompute
      rw [if_neg hpd]
    rw [h1] at h2
    rw [h1, h2, h3]
    congr 1
    rw [List.map_map]
    apply List.map_congr_left
    intro e _
    rfl
